import Mathlib

/-!
# Verification of the screening-session orchestrator

Shallow embedding of the client-side assessment orchestration of the
repository: the bounded result-polling loop (`Assessment.handleCognitiveComplete`),
the speech upload retry pipeline (`SpeechRecorder.handleDataAvailable`),
the cognitive-task state machine (`CognitiveTasks`: sequence selection,
completion scoring, submission assembly), the task generators
(`makeWordRecallTask`, `makeDigitSpanTask`), and the response-field
normalization of `api.fetchAssessmentResult`.

Times are modelled in integral milliseconds and scores in `ℚ`
(the source uses IEEE doubles; every constant involved — 0.1 steps,
sums of at most a handful of such values — is represented exactly enough
that the rational model and the double computation agree on the stated
properties).  The Fisher–Yates-free `shuffle` of the source
(`[...arr].sort(() => Math.random() - 0.5)`) always returns some
rearrangement of its input, so shuffled lists are modelled as an
arbitrary list together with a `List.Perm` hypothesis.
-/

namespace Sih

/-! ## Result polling (Assessment.handleCognitiveComplete, steps 3)

The source loop:

```js
let fetched = null;
for (let i = 0; i < 15; i++) {
  try { fetched = await fetchAssessmentResult(...); break; }
  catch (err) { await sleep(1000); }
}
if (fetched) { setResult(fetched); ... }
else { toast({ title: "Prediction pending", ... }); }
setIsResultPending(false);
```

`fetch i = some r` models attempt `i` resolving with `r`; `none` models a
rejection (e.g. 404 "Prediction not ready").  `pollLoop` returns the final
`fetched` value, the number of fetch attempts issued, and the total
`sleep` time requested. -/

/-- Outcome of the bounded polling loop: final fetched value, number of
fetch attempts issued, and total milliseconds of delay requested. -/
structure PollLoopOut (α : Type) where
  fetched : Option α
  attempts : ℕ
  delayMs : ℕ
  deriving Repr, DecidableEq

/-- The `for (let i = 0; i < fuel; i++)` polling loop starting at
iteration `i`: each rejected attempt is followed by a fixed 1000 ms
delay; the first fulfilled attempt breaks out of the loop. -/
def pollLoop {α : Type} (fetch : ℕ → Option α) : ℕ → ℕ → PollLoopOut α
  | 0, _ => ⟨none, 0, 0⟩
  | fuel + 1, i =>
    match fetch i with
    | some r => ⟨some r, 1, 0⟩
    | none =>
      let rest := pollLoop fetch fuel (i + 1)
      ⟨rest.fetched, rest.attempts + 1, rest.delayMs + 1000⟩

/-- The slice of the orchestrator session touched by the results phase. -/
structure ResultsSession (α : Type) where
  result : Option α
  isResultPending : Bool
  toasts : List String
  /-- set only by the outer `catch` of `handleCognitiveComplete`;
  the polling loop itself swallows every fetch rejection. -/
  threw : Bool
  deriving Repr, DecidableEq

/-- Model of the result-polling tail of `handleCognitiveComplete`:
mark the result pending, run the 15-attempt loop, store the result or
surface the "Prediction pending" notice, then clear the pending flag
(`setIsResultPending(false)` runs on both branches). -/
def runResultPolling {α : Type} (fetch : ℕ → Option α) (s : ResultsSession α) :
    ResultsSession α :=
  let s1 : ResultsSession α := { s with isResultPending := true }
  let out := pollLoop fetch 15 0
  match out.fetched with
  | some r => { s1 with result := some r, isResultPending := false }
  | none =>
    { s1 with
        toasts := s1.toasts ++ ["Prediction pending"],
        isResultPending := false }


/-! ## Speech upload pipeline (SpeechRecorder.handleDataAvailable)

The source handler:

```js
if (!event.data.size || !currentTask) return;
chunksRef.current.push(event.data);
...
try {
  let lastErr = undefined;
  for (let i = 0; i < 3; i++) {
    try { await onUpload({...}); lastErr = undefined; break; }
    catch (e) { lastErr = e; await new Promise((r) => setTimeout(r, 600)); }
  }
  if (lastErr) throw lastErr;
  chunksRef.current = [];
  if (currentIndex < tasks.length - 1) { setCurrentIndex(i => i+1); setElapsedMs(0); }
  else { onComplete(); }
} catch (error) { toast({ title: "Upload failed", ... }); }
```

`upload i = .ok ()` models attempt `i` (0-based) resolving;
`.error e` models it rejecting with error `e`. -/

/-- Result of the inner retry loop: the final `lastErr` value, the number
of upload attempts made, and the total `setTimeout` delay requested
(600 ms after every failed attempt). -/
def retryLoop {ε : Type} (upload : ℕ → Except ε Unit) :
    Option ε → ℕ → ℕ → Option ε × ℕ × ℕ
  | lastErr, 0, _ => (lastErr, 0, 0)
  | _, fuel + 1, i =>
    match upload i with
    | .ok _ => (none, 1, 0)
    | .error e =>
      let rest := retryLoop upload (some e) fuel (i + 1)
      (rest.1, rest.2.1 + 1, rest.2.2 + 600)

/-- The three-attempt retry wrapper exactly as inlined in
`handleDataAvailable` (`for (let i = 0; i < 3; i++)`). -/
def uploadRetry {ε : Type} (upload : ℕ → Except ε Unit) : Option ε × ℕ × ℕ :=
  retryLoop upload none 3 0

/-- The slice of the recorder component state touched by
`handleDataAvailable`. -/
structure RecorderState (ε : Type) where
  currentIndex : ℕ
  elapsedMs : ℕ
  chunks : List ℕ
  /-- whether `onComplete` has been invoked (phase completion signal). -/
  completed : Bool
  /-- whether the "Upload failed" toast was shown. -/
  uploadFailedToast : Bool
  /-- the error object that reached the outer `catch` (via
  `console.error(error)`), if any — this is how a propagated upload
  error is observable. -/
  observedError : Option ε
  deriving Repr, DecidableEq

/-- Model of `handleDataAvailable` for one `dataavailable` event carrying
`chunk` of size `chunkSize`, against a task list of length `tasksLen`. -/
def handleDataAvailable {ε : Type} (tasksLen : ℕ) (upload : ℕ → Except ε Unit)
    (s : RecorderState ε) (chunkSize : ℕ) (chunk : ℕ) : RecorderState ε :=
  if chunkSize = 0 ∨ tasksLen ≤ s.currentIndex then s
  else
    let s1 : RecorderState ε := { s with chunks := s.chunks ++ [chunk] }
    match (uploadRetry upload).1 with
    | some e =>
      { s1 with uploadFailedToast := true, observedError := some e }
    | none =>
      let s2 : RecorderState ε := { s1 with chunks := [] }
      if s2.currentIndex < tasksLen - 1 then
        { s2 with currentIndex := s2.currentIndex + 1, elapsedMs := 0 }
      else
        { s2 with completed := true }


/-! ## Cognitive task data model (CognitiveTasks.tsx)

`TaskState.correct : Option Bool` models the TS `boolean | null`;
`sequence : Option (List ℤ)` models the optional `number[]` of selected
option indices; times are in milliseconds. -/

/-- The `type` union of `CognitiveTask`. -/
inductive TaskType
  | wordRecall
  | digitSpan
  | tapping
  | clockDrawing
  | attention
  deriving DecidableEq, Repr

/-- The per-task interaction state (`interface TaskState`). -/
structure TaskState where
  startTime : Option ℕ
  responseTimeMs : ℕ
  correct : Option Bool
  errors : ℕ
  selectedOption : Option ℕ
  freeResponse : Option String
  sequence : Option (List ℤ)
  deriving Repr, DecidableEq

/-- The catalog entry (`interface CognitiveTask`), restricted to fields
the orchestration reads. -/
structure CognitiveTask where
  id : String
  type : TaskType
  prompt : String
  options : Option (List String)
  correctAnswer : Option ℕ
  sequenceAnswer : Option (List ℤ)
  deriving Repr, DecidableEq

/-! ## Per-task adjusted score (handleFinish, scores reducer) -/

/-- `state?.correct ? 1 : 0`: truthy only when `correct` is `true`
(both `null` and a missing state give 0). -/
def taskBaseScore (st : Option TaskState) : ℚ :=
  match st with
  | some t => if t.correct = some true then 1 else 0
  | none => 0

/-- `state?.errors ?? 0`. -/
def taskErrors (st : Option TaskState) : ℕ :=
  match st with
  | some t => t.errors
  | none => 0

/-- `Math.max(0, baseScore - penalty)` with `penalty = errors * 0.1`. -/
def taskAdjustedScore (st : Option TaskState) : ℚ :=
  max 0 (taskBaseScore st - taskErrors st * (1 / 10))

/-! ## Sequence-task completion (CognitiveTasks, Complete button)

```js
const len = Math.max(expected.length, seq.length);
let mismatches = 0;
for (let i = 0; i < len; i++) {
  if (expected[i] !== seq[i]) mismatches++;
}
const isCorrect = mismatches === 0 && seq.length === expected.length;
completeTask(currentTask.id, { correct: isCorrect, errors: mismatches });
```

A position beyond the end of one list reads `undefined` in JS and hence
always counts as a mismatch; this is `none ≠ some _` below. -/

/-- `(isCorrect, mismatches)` computed by the Complete handler of a
sequence task. -/
def completeSequenceOutcome (expected seq : List ℤ) : Bool × ℕ :=
  let len := max expected.length seq.length
  let mismatches :=
    (List.range len).countP (fun i => decide (expected[i]? ≠ seq[i]?))
  (mismatches == 0 && seq.length == expected.length, mismatches)

/-! ## Ordered-sequence selection (CognitiveTasks.handleOptionSelect, Undo)

The selection branch of `handleOptionSelect` for a task with a
`sequenceAnswer`:

```js
if (!taskStates[task.id]?.startTime) { toast(...); return; }
const seq = cur.sequence ?? [];
if (seq.includes(optionIndex) || seq.length >= task.sequenceAnswer!.length) return prev;
return { ...prev, [task.id]: { ...cur, sequence: [...seq, optionIndex] } };
```

and the Undo button handler:

```js
if (!cur?.sequence?.length) return prev;
const next = [...cur.sequence]; next.pop();
return { ...prev, [task.id]: { ...cur, sequence: next } };
```

The sequence branch returns before `completeTask` is ever reached, so a
selection never advances `currentIndex` nor sets `isFinished`; that is
captured by carrying those component fields through the step functions. -/

/-- Component-level state relevant to sequence selection on the current
task. -/
structure SeqSelectionState where
  state : TaskState
  currentIndex : ℕ
  isFinished : Bool
  deriving Repr, DecidableEq

/-- A user interaction on an in-progress sequence task. -/
inductive SeqEvent
  | select (i : ℤ)
  | undo
  deriving Repr, DecidableEq

/-- The sequence branch of `handleOptionSelect`. -/
def handleSequenceSelect (expected : List ℤ) (c : SeqSelectionState)
    (i : ℤ) : SeqSelectionState :=
  if c.state.startTime = none then c
  else
    let seq := c.state.sequence.getD []
    if i ∈ seq ∨ expected.length ≤ seq.length then c
    else { c with state := { c.state with sequence := some (seq ++ [i]) } }

/-- The Undo button handler. -/
def handleUndo (c : SeqSelectionState) : SeqSelectionState :=
  let seq := c.state.sequence.getD []
  if seq = [] then c
  else { c with state := { c.state with sequence := some seq.dropLast } }

/-- Dispatch one interaction. -/
def seqStep (expected : List ℤ) (c : SeqSelectionState) :
    SeqEvent → SeqSelectionState
  | .select i => handleSequenceSelect expected c i
  | .undo => handleUndo c

/-- Run a list of interactions left to right. -/
def runSeqEvents (expected : List ℤ) (c : SeqSelectionState)
    (evs : List SeqEvent) : SeqSelectionState :=
  evs.foldl (seqStep expected) c

/-- The invariant maintained by sequence selection: the accumulated
selection has pairwise-distinct entries and never gets longer than the
expected permutation. -/
def SeqInv (expected : List ℤ) (c : SeqSelectionState) : Prop :=
  (c.state.sequence.getD []).Nodup ∧
    (c.state.sequence.getD []).length ≤ expected.length

/-! ## Domain scores (handleFinish, scores reducer)

```js
if (task.type === "word-recall") acc.memoryScore += adjustedScore;
if (task.type === "digit-span" || task.type === "attention") acc.attentionScore += adjustedScore;
if (task.type === "clock-drawing") acc.executiveScore += adjustedScore;
if (task.type === "tapping") acc.languageScore += adjustedScore;
```
-/

/-- The four domain sub-scores (`CognitiveScores` of services/api.ts). -/
structure CognitiveScores where
  memoryScore : ℚ
  attentionScore : ℚ
  languageScore : ℚ
  executiveScore : ℚ
  deriving Repr, DecidableEq

/-- One reducer step of the `scores` fold in `handleFinish`: the four
`if` statements are independent, keyed on the task type. -/
def scoreStep (acc : CognitiveScores) (ty : TaskType) (adj : ℚ) :
    CognitiveScores :=
  let a1 := if ty = TaskType.wordRecall then
    { acc with memoryScore := acc.memoryScore + adj } else acc
  let a2 := if ty = TaskType.digitSpan ∨ ty = TaskType.attention then
    { a1 with attentionScore := a1.attentionScore + adj } else a1
  let a3 := if ty = TaskType.clockDrawing then
    { a2 with executiveScore := a2.executiveScore + adj } else a2
  if ty = TaskType.tapping then
    { a3 with languageScore := a3.languageScore + adj } else a3

/-- The `tasks.reduce(...)` of `handleFinish`, starting from all-zero
sub-scores. -/
def computeScores (tasks : List CognitiveTask)
    (states : String → Option TaskState) : CognitiveScores :=
  tasks.foldl
    (fun acc t => scoreStep acc t.type (taskAdjustedScore (states t.id)))
    ⟨0, 0, 0, 0⟩

/-! ## Submission assembly (handleFinish, logs) -/

/-- The `metadata` object attached to sequence-task logs. -/
structure SequenceMetadata where
  expectedSequence : List ℤ
  selectedSequence : List ℤ
  deriving Repr, DecidableEq

/-- One `InteractionLog` entry (services/api.ts), as assembled by
`handleFinish`. -/
structure InteractionLog where
  taskId : String
  taskType : String
  prompt : String
  responseTimeMs : ℕ
  correct : Option Bool
  errors : Option ℕ
  metadata : Option SequenceMetadata
  deriving Repr, DecidableEq

/-- The log built for one task:
`responseTimeMs: state?.responseTimeMs ?? 0`, `correct: state?.correct ?? null`,
`errors: state?.errors`, and for sequence tasks
`metadata = { expectedSequence, selectedSequence: state?.sequence ?? [] }`. -/
def buildLog (t : CognitiveTask) (st : Option TaskState) : InteractionLog :=
  { taskId := t.id
    taskType := "cognitive"
    prompt := t.prompt
    responseTimeMs := (st.map TaskState.responseTimeMs).getD 0
    correct := st.bind TaskState.correct
    errors := st.map TaskState.errors
    metadata :=
      match t.sequenceAnswer with
      | some exp => some ⟨exp, (st.bind TaskState.sequence).getD []⟩
      | none => none }

/-- `tasks.map((task) => {...})` of `handleFinish`. -/
def buildLogs (tasks : List CognitiveTask)
    (states : String → Option TaskState) : List InteractionLog :=
  tasks.map (fun t => buildLog t (states t.id))

/-! ## Task generators (Assessment.tsx)

```js
function makeWordRecallTask(id, title, words) {
  const options = shuffle(words);
  const sequenceAnswer = words.map((w) => options.indexOf(w));
  ...
}
function makeDigitSpanTask(id, title, digits) {
  const pool = shuffle(Array.from(new Set([...digits, ...shuffle([0,...,9]).slice(0, 5)])));
  const options = pool.map(String);
  const sequenceAnswer = digits.map((d) => options.indexOf(String(d)));
  ...
}
```

`shuffle` returns a permutation of its input, modelled by a `List.Perm`
hypothesis; `Array.from(new Set(l))` enumerates the distinct elements of
`l` once each, modelled as a permutation of `l.dedup`; `String(d)` is
`toString d`. -/

/-- JavaScript `Array.prototype.indexOf`: first index of `a`, `-1` when
absent. -/
def jsIndexOf {α : Type} [DecidableEq α] (l : List α) (a : α) : ℤ :=
  if a ∈ l then (l.indexOf a : ℤ) else -1

/-- The option list and expected-index permutation of a generated
sequence task. -/
structure GeneratedSeqTask where
  options : List String
  sequenceAnswer : List ℤ
  deriving Repr, DecidableEq

/-- `makeWordRecallTask`, with `options` the shuffled copy of `words`. -/
def makeWordRecallTask (words options : List String) : GeneratedSeqTask :=
  ⟨options, words.map (fun w => jsIndexOf options w)⟩

/-- `makeDigitSpanTask`, with `pool` the shuffled deduplicated union of
the target digits and the sampled distractors. -/
def makeDigitSpanTask (digits : List ℕ) (pool : List ℕ) : GeneratedSeqTask :=
  ⟨pool.map (fun n => toString n),
    digits.map (fun d => jsIndexOf (pool.map (fun n => toString n)) (toString d))⟩

/-! ## Response normalization (api.fetchAssessmentResult)

```js
const rawRisk = raw.riskLevel ?? raw.risk_level;
const normalizedRisk = rawRisk === "Moderate" ? "Medium" : rawRisk;
```
-/

/-- The risk-label synonym normalization of `fetchAssessmentResult`. -/
def normalizedRisk (rawRisk : String) : String :=
  if rawRisk = "Moderate" then "Medium" else rawRisk

/-- The canonical three-level risk scale of `AssessmentResult.riskLevel`. -/
def canonicalRiskLevels : List String := ["Low", "Medium", "High"]

theorem pollLoop_attempts_le {α : Type} (fetch : ℕ → Option α) :
    ∀ fuel i, (pollLoop fetch fuel i).attempts ≤ fuel := by
  intro fuel
  induction fuel with
  | zero => intro i; simp [pollLoop]
  | succ n ih =>
    intro i
    simp only [pollLoop]
    cases h : fetch i with
    | some r => simp
    | none => simpa using Nat.succ_le_succ (ih (i + 1))

theorem pollLoop_all_fail {α : Type} (fetch : ℕ → Option α) :
    ∀ fuel i, (∀ j, i ≤ j → j < i + fuel → fetch j = none) →
      pollLoop fetch fuel i = ⟨none, fuel, 1000 * fuel⟩ := by
  intro fuel
  induction fuel with
  | zero => intro i _; simp [pollLoop]
  | succ n ih =>
    intro i h
    have hi : fetch i = none := h i le_rfl (by omega)
    have hrest := ih (i + 1) fun j hj hj' => h j (by omega) (by omega)
    simp only [pollLoop, hi, hrest]
    refine congrArg₂ _ rfl (congrArg₂ _ rfl ?_)
    ring

theorem pollLoop_first_success {α : Type} (fetch : ℕ → Option α) :
    ∀ k fuel i, k < fuel → (∀ j, i ≤ j → j < i + k → fetch j = none) →
      (∀ r, fetch (i + k) = some r →
        pollLoop fetch fuel i = ⟨some r, k + 1, 1000 * k⟩) := by
  intro k
  induction k with
  | zero =>
    intro fuel i hk _ r hr
    obtain ⟨m, rfl⟩ := Nat.exists_eq_add_of_lt hk
    simp only [Nat.add_zero] at hr
    simp [pollLoop, hr]
  | succ n ih =>
    intro fuel i hk h r hr
    obtain ⟨m, rfl⟩ := Nat.exists_eq_add_of_lt hk
    have hi : fetch i = none := h i le_rfl (by omega)
    have hrest := ih (n + 1 + m) (i + 1) (by omega)
      (fun j hj hj' => h j (by omega) (by omega)) r
      (by simpa [Nat.add_comm, Nat.add_assoc, Nat.add_left_comm] using hr)
    simp only [pollLoop, hi, hrest]
    refine congrArg₂ _ rfl (congrArg₂ _ rfl ?_)
    ring

theorem pollLoop_isSome_attempts_pos {α : Type} (fetch : ℕ → Option α) :
    ∀ fuel i, (pollLoop fetch fuel i).fetched.isSome →
      1 ≤ (pollLoop fetch fuel i).attempts := by
  intro fuel
  induction fuel with
  | zero => intro i h; simp [pollLoop] at h
  | succ n ih =>
    intro i
    simp only [pollLoop]
    cases h : fetch i with
    | some r => simp
    | none => intro hs; simp

theorem pollLoop_delay_eq {α : Type} (fetch : ℕ → Option α) :
    ∀ fuel i, (pollLoop fetch fuel i).delayMs =
      1000 * ((pollLoop fetch fuel i).attempts -
        (if (pollLoop fetch fuel i).fetched.isSome then 1 else 0)) := by
  intro fuel
  induction fuel with
  | zero => intro i; simp [pollLoop]
  | succ n ih =>
    intro i
    cases h : fetch i with
    | some r => simp [pollLoop, h]
    | none =>
      simp only [pollLoop, h]
      cases hs : (pollLoop fetch n (i + 1)).fetched with
      | some r =>
        have hpos := pollLoop_isSome_attempts_pos fetch n (i + 1)
        rw [hs] at hpos
        have h1 : 1 ≤ (pollLoop fetch n (i + 1)).attempts := hpos (by simp)
        have := ih (i + 1)
        rw [hs] at this
        simp only [Option.isSome_some, if_pos] at this ⊢
        omega
      | none =>
        have := ih (i + 1)
        rw [hs] at this
        simp only [Option.isSome_none, Bool.false_eq_true, if_neg, if_false] at this ⊢
        omega

/-- **C1 (amended).** The results-phase polling loop issues at most 15 fetch
attempts, requests a fixed 1-second delay after each unsuccessful attempt,
terminates at the first successful fetch, and when all 15 attempts fail it
raises no exception and surfaces the "Prediction pending" (still computing)
notice rather than an error — but the session's pending flag is then
*cleared* (set to `false`), not left `true`: `setIsResultPending(false)`
runs unconditionally after the loop in `handleCognitiveComplete`. -/
theorem polling_soft_timeout {α : Type} (fetch : ℕ → Option α)
    (s : ResultsSession α) :
    (pollLoop fetch 15 0).attempts ≤ 15 ∧
    (pollLoop fetch 15 0).delayMs =
      1000 * ((pollLoop fetch 15 0).attempts -
        (if (pollLoop fetch 15 0).fetched.isSome then 1 else 0)) ∧
    (∀ k r, k < 15 → (∀ j, j < k → fetch j = none) → fetch k = some r →
      pollLoop fetch 15 0 = ⟨some r, k + 1, 1000 * k⟩ ∧
      (runResultPolling fetch s).result = some r) ∧
    ((∀ j, j < 15 → fetch j = none) →
      (pollLoop fetch 15 0).attempts = 15 ∧
      (pollLoop fetch 15 0).fetched = none ∧
      (runResultPolling fetch s).threw = s.threw ∧
      (runResultPolling fetch s).isResultPending = false ∧
      "Prediction pending" ∈ (runResultPolling fetch s).toasts) := by
  refine ⟨pollLoop_attempts_le fetch 15 0, pollLoop_delay_eq fetch 15 0, ?_, ?_⟩
  · intro k r hk hfail hsucc
    have h := pollLoop_first_success fetch k 15 0 hk
      (fun j _ hj' => hfail j (by omega)) r (by simpa using hsucc)
    exact ⟨h, by simp [runResultPolling, h]⟩
  · intro hfail
    have h := pollLoop_all_fail fetch 15 0 (fun j _ hj' => hfail j (by omega))
    refine ⟨by simp [h], by simp [h], ?_, ?_, ?_⟩ <;>
      simp [runResultPolling, h]

/-- **C1, witness.** Instantiation of `polling_soft_timeout` at the
always-failing endpoint: 15 attempts are issued, the pending flag ends
`false`, and the "Prediction pending" notice is surfaced. -/
theorem polling_soft_timeout_witness :
    (pollLoop (fun _ => (none : Option ℕ)) 15 0).attempts = 15 ∧
    (runResultPolling (fun _ => (none : Option ℕ))
      ⟨none, false, [], false⟩).isResultPending = false ∧
    "Prediction pending" ∈ (runResultPolling (fun _ => (none : Option ℕ))
      ⟨none, false, [], false⟩).toasts :=
  have h := (polling_soft_timeout (fun _ => (none : Option ℕ))
    ⟨none, false, [], false⟩).2.2.2 (fun _ _ => rfl)
  ⟨h.1, h.2.2.2.1, h.2.2.2.2⟩

/-- **C1, counterexample.** Against an endpoint that fails all 15 attempts
(always "not ready"), the session's pending flag does **not** remain true:
`handleCognitiveComplete` clears it unconditionally after the loop, so it
ends `false` even on the soft-timeout path. -/
theorem polling_pending_flag_cex :
    ¬ ((runResultPolling (fun _ => (none : Option ℕ))
        ⟨none, true, [], false⟩).isResultPending = true) := by
  decide
theorem retryLoop_attempts_le {ε : Type} (upload : ℕ → Except ε Unit) :
    ∀ le fuel i, (retryLoop upload le fuel i).2.1 ≤ fuel := by
  intro le fuel
  induction fuel generalizing le with
  | zero => intro i; simp [retryLoop]
  | succ n ih =>
    intro i
    cases h : upload i with
    | ok _ => simp [retryLoop, h]
    | error e =>
      simp only [retryLoop, h]
      exact Nat.succ_le_succ (ih (some e) (i + 1))

theorem retryLoop_all_fail {ε : Type} (upload : ℕ → Except ε Unit)
    (errs : ℕ → ε) :
    ∀ fuel le i,
      (∀ j, i ≤ j → j < i + fuel → upload j = .error (errs j)) →
      retryLoop upload le fuel i =
        ((if fuel = 0 then le else some (errs (i + fuel - 1))),
          fuel, 600 * fuel) := by
  intro fuel
  induction fuel with
  | zero => intro le i _; simp [retryLoop]
  | succ n ih =>
    intro le i h
    have hi : upload i = .error (errs i) := h i le_rfl (by omega)
    have hrest := ih (some (errs i)) (i + 1)
      (fun j hj hj' => h j (by omega) (by omega))
    simp only [retryLoop, hi, hrest]
    rcases Nat.eq_zero_or_pos n with h0 | h0
    · subst h0; simp
    · have h1 : ¬n = 0 := by omega
      have h2 : i + 1 + n - 1 = i + (n + 1) - 1 := by omega
      simp only [h1, if_false, Nat.succ_ne_zero, h2]
      exact congrArg₂ _ rfl (congrArg₂ _ rfl (by ring))

theorem retryLoop_first_success {ε : Type} (upload : ℕ → Except ε Unit) :
    ∀ k fuel i le, k < fuel →
      (∀ j, i ≤ j → j < i + k → ∃ e, upload j = .error e) →
      upload (i + k) = .ok () →
      retryLoop upload le fuel i = (none, k + 1, 600 * k) := by
  intro k
  induction k with
  | zero =>
    intro fuel i le hk _ hi
    obtain ⟨m, rfl⟩ := Nat.exists_eq_add_of_lt hk
    simp only [Nat.add_zero] at hi
    simp [retryLoop, hi]
  | succ n ih =>
    intro fuel i le hk h hsucc
    obtain ⟨m, rfl⟩ := Nat.exists_eq_add_of_lt hk
    obtain ⟨e, he⟩ := h i le_rfl (by omega)
    have hrest := ih (n + 1 + m) (i + 1) (some e) (by omega)
      (fun j hj hj' => h j (by omega) (by omega))
      (by simpa [Nat.add_comm, Nat.add_assoc, Nat.add_left_comm] using hsucc)
    simp only [retryLoop, he, hrest]
    exact congrArg₂ _ rfl (congrArg₂ _ rfl (by ring))

/-- **C2.** The speech pipeline makes at most 3 upload attempts per data
chunk, waits 600 ms after each failed attempt (so successive attempts are
600 ms apart), clears the chunk buffer only after a successful upload, and
when all 3 attempts fail: exactly 3 attempts occurred, the original error
of the last attempt reaches the outer handler (is observable), the chunk
buffer keeps the chunk, and the current task index does not advance. -/
theorem upload_retry_policy {ε : Type} (upload : ℕ → Except ε Unit)
    (errs : ℕ → ε) (s : RecorderState ε) (tasksLen chunkSize chunk : ℕ)
    (hsize : chunkSize ≠ 0) (htask : s.currentIndex < tasksLen) :
    (uploadRetry upload).2.1 ≤ 3 ∧
    (∀ k, k < 3 → (∀ j, j < k → ∃ e, upload j = .error e) →
      upload k = .ok () → uploadRetry upload = (none, k + 1, 600 * k)) ∧
    ((handleDataAvailable tasksLen upload s chunkSize chunk).chunks = [] ↔
      (uploadRetry upload).1 = none) ∧
    ((∀ j, j < 3 → upload j = .error (errs j)) →
      uploadRetry upload = (some (errs 2), 3, 3 * 600) ∧
      (handleDataAvailable tasksLen upload s chunkSize chunk).observedError =
        some (errs 2) ∧
      (handleDataAvailable tasksLen upload s chunkSize chunk).currentIndex =
        s.currentIndex ∧
      (handleDataAvailable tasksLen upload s chunkSize chunk).chunks =
        s.chunks ++ [chunk] ∧
      (handleDataAvailable tasksLen upload s chunkSize chunk).completed =
        s.completed ∧
      (handleDataAvailable tasksLen upload s chunkSize chunk).uploadFailedToast
        = true) := by
  have hguard : ¬(chunkSize = 0 ∨ tasksLen ≤ s.currentIndex) := by
    push_neg
    exact ⟨hsize, htask⟩
  refine ⟨retryLoop_attempts_le upload none 3 0, ?_, ?_, ?_⟩
  · intro k hk hfail hsucc
    exact retryLoop_first_success upload k 3 0 none hk
      (fun j _ hj' => hfail j (by omega)) (by simpa using hsucc)
  · cases hu : (uploadRetry upload).1 with
    | some e => simp [handleDataAvailable, hguard, hu]
    | none =>
      by_cases hidx : s.currentIndex < tasksLen - 1 <;>
        simp [handleDataAvailable, hguard, hu, hidx]
  · intro hfail
    have h := retryLoop_all_fail upload errs 3 none 0
      (fun j _ hj' => hfail j (by omega))
    have h3 : uploadRetry upload = (some (errs 2), 3, 3 * 600) := by
      simpa [uploadRetry] using h
    refine ⟨h3, ?_, ?_, ?_, ?_, ?_⟩ <;>
      simp [handleDataAvailable, hguard, h3]

/-- **C2, witness.** Instantiation of `upload_retry_policy` at an
always-failing upload function: exactly 3 attempts, the final error is
observable, the chunk stays buffered and the task index stays put. -/
theorem upload_retry_policy_witness :
    uploadRetry (fun i => (Except.error i : Except ℕ Unit)) =
      (some 2, 3, 3 * 600) ∧
    (handleDataAvailable 3 (fun i => (Except.error i : Except ℕ Unit))
      ⟨0, 5, [9], false, false, none⟩ 1 7).observedError = some 2 ∧
    (handleDataAvailable 3 (fun i => (Except.error i : Except ℕ Unit))
      ⟨0, 5, [9], false, false, none⟩ 1 7).currentIndex = 0 ∧
    (handleDataAvailable 3 (fun i => (Except.error i : Except ℕ Unit))
      ⟨0, 5, [9], false, false, none⟩ 1 7).chunks = [9] ++ [7] :=
  have h := (upload_retry_policy (fun i => (Except.error i : Except ℕ Unit))
    (fun i => i) ⟨0, 5, [9], false, false, none⟩ 3 1 7 (by decide)
    (by decide)).2.2.2 (fun j _ => rfl)
  ⟨h.1, h.2.1, h.2.2.1, h.2.2.2.1⟩

/-- **C6.** After an upload succeeds within the retry loop: if speech
tasks remain after the current one, the current task index advances by one
and the elapsed-time counter resets to zero (and the buffer is cleared);
if the current task is the last one, the phase-completion callback is
invoked instead, leaving index and elapsed counter unchanged. -/
theorem upload_success_advances {ε : Type} (upload : ℕ → Except ε Unit)
    (s : RecorderState ε) (tasksLen chunkSize chunk : ℕ)
    (hsize : chunkSize ≠ 0) (htask : s.currentIndex < tasksLen)
    (hsucc : (uploadRetry upload).1 = none) :
    (s.currentIndex < tasksLen - 1 →
      handleDataAvailable tasksLen upload s chunkSize chunk =
        { s with currentIndex := s.currentIndex + 1, elapsedMs := 0,
                 chunks := [] }) ∧
    (¬s.currentIndex < tasksLen - 1 →
      handleDataAvailable tasksLen upload s chunkSize chunk =
        { s with chunks := [], completed := true }) := by
  have hguard : ¬(chunkSize = 0 ∨ tasksLen ≤ s.currentIndex) := by
    push_neg
    exact ⟨hsize, htask⟩
  constructor <;> intro hidx <;>
    simp [handleDataAvailable, hguard, hsucc, hidx]

/-- **C6, witness.** Instantiation of `upload_success_advances` at an
upload that succeeds immediately, with one more task remaining: the index
advances from 0 to 1 and the elapsed counter resets. -/
theorem upload_success_advances_witness :
    handleDataAvailable 2 (fun _ => (Except.ok () : Except ℕ Unit))
      ⟨0, 5, [9], false, false, none⟩ 1 7 =
      ⟨1, 0, [], false, false, none⟩ :=
  (upload_success_advances (fun _ => (Except.ok () : Except ℕ Unit))
    ⟨0, 5, [9], false, false, none⟩ 2 1 7 (by decide) (by decide) rfl).1
    (by decide)
theorem taskBaseScore_nonneg (st : Option TaskState) : 0 ≤ taskBaseScore st := by
  cases st with
  | none => simp [taskBaseScore]
  | some t => by_cases h : t.correct = some true <;> simp [taskBaseScore, h]

theorem taskBaseScore_le_one (st : Option TaskState) : taskBaseScore st ≤ 1 := by
  cases st with
  | none => simp [taskBaseScore]
  | some t => by_cases h : t.correct = some true <;> simp [taskBaseScore, h]

/-- **C5.** For every task state (including a missing one), the adjusted
score `max(0, (correct ? 1 : 0) - 0.1 × errors)` lies in `[0, 1]`, and
with at least 10 errors it is exactly 0 regardless of correctness. -/
theorem adjusted_score_bounds (st : Option TaskState) :
    0 ≤ taskAdjustedScore st ∧ taskAdjustedScore st ≤ 1 ∧
      (10 ≤ taskErrors st → taskAdjustedScore st = 0) := by
  refine ⟨le_max_left 0 _, ?_, ?_⟩
  · refine max_le (by norm_num) ?_
    have h1 := taskBaseScore_le_one st
    have h2 : (0 : ℚ) ≤ taskErrors st * (1 / 10) := by positivity
    linarith
  · intro herr
    have h1 := taskBaseScore_le_one st
    have h2 : (10 : ℚ) ≤ taskErrors st := by exact_mod_cast herr
    have h3 : taskBaseScore st - taskErrors st * (1 / 10) ≤ 0 := by linarith
    exact max_eq_left h3

/-- **C5, witness.** A correct task state with 12 errors has adjusted
score exactly 0. -/
theorem adjusted_score_bounds_witness :
    10 ≤ taskErrors (some ⟨none, 0, some true, 12, none, none, none⟩) ∧
    taskAdjustedScore (some ⟨none, 0, some true, 12, none, none, none⟩) = 0 :=
  ⟨by decide,
    (adjusted_score_bounds
      (some ⟨none, 0, some true, 12, none, none, none⟩)).2.2 (by decide)⟩

/-- **C3.** For a sequence task completed while active, the recorded error
count is the number of element-wise mismatches between the expected
permutation and the accumulated selection over the longer of the two
lengths (missing positions mismatch), correctness holds exactly when the
mismatch count is zero and the lengths agree, and submitting exactly the
expected permutation yields `correct = true` and `errors = 0`. -/
theorem sequence_completion_spec (expected seq : List ℤ) :
    (completeSequenceOutcome expected seq).2 =
      ((Finset.range (max expected.length seq.length)).filter
        (fun i => expected[i]? ≠ seq[i]?)).card ∧
    ((completeSequenceOutcome expected seq).1 = true ↔
      ((completeSequenceOutcome expected seq).2 = 0 ∧
        seq.length = expected.length)) ∧
    completeSequenceOutcome expected expected = (true, 0) := by
  refine ⟨?_, ?_, ?_⟩
  · show (List.range (max expected.length seq.length)).countP
        (fun i => decide (expected[i]? ≠ seq[i]?)) = _
    rw [List.countP_eq_length_filter]
    rfl
  · simp only [completeSequenceOutcome, Bool.and_eq_true, beq_iff_eq]
  · simp [completeSequenceOutcome, List.countP_eq_zero]

theorem seqStep_inv (expected : List ℤ) (c : SeqSelectionState)
    (e : SeqEvent) (h : SeqInv expected c) :
    SeqInv expected (seqStep expected c e) := by
  obtain ⟨hnd, hlen⟩ := h
  cases e with
  | select i =>
    simp only [seqStep, handleSequenceSelect]
    split
    · exact ⟨hnd, hlen⟩
    · split
      · exact ⟨hnd, hlen⟩
      · rename_i hguard
        push_neg at hguard
        obtain ⟨hmem, hlt⟩ := hguard
        constructor
        · simpa [List.nodup_append] using ⟨hnd, hmem⟩
        · simpa using hlt
  | undo =>
    simp only [seqStep, handleUndo]
    split
    · exact ⟨hnd, hlen⟩
    · constructor
      · exact hnd.sublist (List.dropLast_sublist _)
      · simp only [Option.getD_some]
        calc (c.state.sequence.getD []).dropLast.length
            ≤ (c.state.sequence.getD []).length :=
              (List.dropLast_sublist _).length_le
          _ ≤ expected.length := hlen

theorem runSeqEvents_inv (expected : List ℤ) (evs : List SeqEvent) :
    ∀ c, SeqInv expected c → SeqInv expected (runSeqEvents expected c evs) := by
  induction evs with
  | nil => intro c h; exact h
  | cons e evs ih =>
    intro c h
    exact ih (seqStep expected c e) (seqStep_inv expected c e h)

/-- **C8.** For ordered-sequence tasks: starting from a fresh state, the
accumulated selection always has pairwise-distinct option indices and its
length never exceeds the expected permutation's; a select event whose
index is already chosen, or arriving at full length, leaves the state
unchanged; selection events never complete the task (current index and
finished flag are untouched, as is the start timestamp); and Undo removes
exactly the most recent element while leaving the start timestamp
unchanged. -/
theorem sequence_selection_invariants (expected : List ℤ) :
    (∀ c0 : SeqSelectionState, c0.state.sequence = none →
      ∀ evs : List SeqEvent,
        ((runSeqEvents expected c0 evs).state.sequence.getD []).Nodup ∧
        ((runSeqEvents expected c0 evs).state.sequence.getD []).length ≤
          expected.length) ∧
    (∀ (c : SeqSelectionState) (i : ℤ),
      (i ∈ c.state.sequence.getD [] ∨
        expected.length ≤ (c.state.sequence.getD []).length) →
      handleSequenceSelect expected c i = c) ∧
    (∀ (c : SeqSelectionState) (e : SeqEvent),
      (seqStep expected c e).isFinished = c.isFinished ∧
      (seqStep expected c e).currentIndex = c.currentIndex ∧
      (seqStep expected c e).state.startTime = c.state.startTime) ∧
    (∀ c : SeqSelectionState,
      (handleUndo c).state.sequence.getD [] =
        (c.state.sequence.getD []).dropLast ∧
      (handleUndo c).state.startTime = c.state.startTime) := by
  refine ⟨?_, ?_, ?_, ?_⟩
  · intro c0 h0 evs
    exact runSeqEvents_inv expected evs c0 (by simp [SeqInv, h0])
  · intro c i h
    by_cases h1 : c.state.startTime = none
    · simp [handleSequenceSelect, h1]
    · simp [handleSequenceSelect, h1, if_pos h]
  · intro c e
    cases e with
    | select i =>
      simp only [seqStep, handleSequenceSelect]
      split
      · exact ⟨rfl, rfl, rfl⟩
      · split
        · exact ⟨rfl, rfl, rfl⟩
        · exact ⟨rfl, rfl, rfl⟩
    | undo =>
      simp only [seqStep, handleUndo]
      split
      · exact ⟨rfl, rfl, rfl⟩
      · exact ⟨rfl, rfl, rfl⟩
  · intro c
    simp only [handleUndo]
    split
    · rename_i hnil
      simp [hnil]
    · exact ⟨rfl, rfl⟩

/-- **C8, witness.** Instantiation of `sequence_selection_invariants`:
re-selecting an already-chosen index is a no-op, and a run of events from
the fresh state keeps the selection duplicate-free. -/
theorem sequence_selection_invariants_witness :
    ((0 : ℤ) ∈ ((⟨⟨some 5, 0, none, 0, none, none, some [0]⟩, 2, false⟩ :
        SeqSelectionState)).state.sequence.getD [] ∨
      ([0, 1] : List ℤ).length ≤
        (((⟨⟨some 5, 0, none, 0, none, none, some [0]⟩, 2, false⟩ :
          SeqSelectionState)).state.sequence.getD []).length) ∧
    handleSequenceSelect [0, 1]
      ⟨⟨some 5, 0, none, 0, none, none, some [0]⟩, 2, false⟩ 0 =
      ⟨⟨some 5, 0, none, 0, none, none, some [0]⟩, 2, false⟩ ∧
    ((runSeqEvents [0, 1] ⟨⟨some 5, 0, none, 0, none, none, none⟩, 2, false⟩
      [SeqEvent.select 0, SeqEvent.select 0, SeqEvent.select 1,
        SeqEvent.undo]).state.sequence.getD []).Nodup :=
  ⟨Or.inl (by decide),
    (sequence_selection_invariants [0, 1]).2.1
      ⟨⟨some 5, 0, none, 0, none, none, some [0]⟩, 2, false⟩ 0
      (Or.inl (by decide)),
    ((sequence_selection_invariants [0, 1]).1
      ⟨⟨some 5, 0, none, 0, none, none, none⟩, 2, false⟩ rfl
      [SeqEvent.select 0, SeqEvent.select 0, SeqEvent.select 1,
        SeqEvent.undo]).1⟩

theorem scoreStep_memoryScore (acc : CognitiveScores) (ty : TaskType)
    (adj : ℚ) :
    (scoreStep acc ty adj).memoryScore =
      if ty = TaskType.wordRecall then acc.memoryScore + adj
      else acc.memoryScore := by
  cases ty <;> simp [scoreStep]

theorem scoreStep_attentionScore (acc : CognitiveScores) (ty : TaskType)
    (adj : ℚ) :
    (scoreStep acc ty adj).attentionScore =
      if ty = TaskType.digitSpan ∨ ty = TaskType.attention then
        acc.attentionScore + adj
      else acc.attentionScore := by
  cases ty <;> simp [scoreStep]

theorem scoreStep_executiveScore (acc : CognitiveScores) (ty : TaskType)
    (adj : ℚ) :
    (scoreStep acc ty adj).executiveScore =
      if ty = TaskType.clockDrawing then acc.executiveScore + adj
      else acc.executiveScore := by
  cases ty <;> simp [scoreStep]

theorem scoreStep_languageScore (acc : CognitiveScores) (ty : TaskType)
    (adj : ℚ) :
    (scoreStep acc ty adj).languageScore =
      if ty = TaskType.tapping then acc.languageScore + adj
      else acc.languageScore := by
  cases ty <;> simp [scoreStep]

theorem scoresFold_memory (states : String → Option TaskState) :
    ∀ (tasks : List CognitiveTask) (acc : CognitiveScores),
      ((tasks.foldl
        (fun acc t => scoreStep acc t.type (taskAdjustedScore (states t.id)))
        acc).memoryScore) =
      acc.memoryScore +
        ((tasks.filter (fun t => decide (t.type = TaskType.wordRecall))).map
          (fun t => taskAdjustedScore (states t.id))).sum := by
  intro tasks
  induction tasks with
  | nil => intro acc; simp
  | cons t ts ih =>
    intro acc
    simp only [List.foldl_cons]
    rw [ih]
    by_cases h : t.type = TaskType.wordRecall <;>
      (simp [List.filter_cons, h, scoreStep_memoryScore]; try ring)

theorem scoresFold_attention (states : String → Option TaskState) :
    ∀ (tasks : List CognitiveTask) (acc : CognitiveScores),
      ((tasks.foldl
        (fun acc t => scoreStep acc t.type (taskAdjustedScore (states t.id)))
        acc).attentionScore) =
      acc.attentionScore +
        ((tasks.filter (fun t =>
          decide (t.type = TaskType.digitSpan ∨
            t.type = TaskType.attention))).map
          (fun t => taskAdjustedScore (states t.id))).sum := by
  intro tasks
  induction tasks with
  | nil => intro acc; simp
  | cons t ts ih =>
    intro acc
    simp only [List.foldl_cons]
    rw [ih]
    by_cases h : t.type = TaskType.digitSpan ∨ t.type = TaskType.attention <;>
      (simp [List.filter_cons, h, scoreStep_attentionScore]; try ring)

theorem scoresFold_executive (states : String → Option TaskState) :
    ∀ (tasks : List CognitiveTask) (acc : CognitiveScores),
      ((tasks.foldl
        (fun acc t => scoreStep acc t.type (taskAdjustedScore (states t.id)))
        acc).executiveScore) =
      acc.executiveScore +
        ((tasks.filter (fun t => decide (t.type = TaskType.clockDrawing))).map
          (fun t => taskAdjustedScore (states t.id))).sum := by
  intro tasks
  induction tasks with
  | nil => intro acc; simp
  | cons t ts ih =>
    intro acc
    simp only [List.foldl_cons]
    rw [ih]
    by_cases h : t.type = TaskType.clockDrawing <;>
      (simp [List.filter_cons, h, scoreStep_executiveScore]; try ring)

theorem scoresFold_language (states : String → Option TaskState) :
    ∀ (tasks : List CognitiveTask) (acc : CognitiveScores),
      ((tasks.foldl
        (fun acc t => scoreStep acc t.type (taskAdjustedScore (states t.id)))
        acc).languageScore) =
      acc.languageScore +
        ((tasks.filter (fun t => decide (t.type = TaskType.tapping))).map
          (fun t => taskAdjustedScore (states t.id))).sum := by
  intro tasks
  induction tasks with
  | nil => intro acc; simp
  | cons t ts ih =>
    intro acc
    simp only [List.foldl_cons]
    rw [ih]
    by_cases h : t.type = TaskType.tapping <;>
      (simp [List.filter_cons, h, scoreStep_languageScore]; try ring)

/-- **C7.** Domain sub-scores are additive sums of per-task adjusted
scores attributed by task kind (word-recall → memory, digit-span and
attention → attention, clock-drawing → executive, the reserved tapping
kind → language); a word-recall step leaves the other three domains
untouched; and a session whose only memory-kind task is one correct
word-recall task with 0 errors has memory score exactly 1. -/
theorem domain_score_attribution (tasks : List CognitiveTask)
    (states : String → Option TaskState) :
    ((computeScores tasks states).memoryScore =
      ((tasks.filter (fun t => decide (t.type = TaskType.wordRecall))).map
        (fun t => taskAdjustedScore (states t.id))).sum) ∧
    ((computeScores tasks states).attentionScore =
      ((tasks.filter (fun t =>
        decide (t.type = TaskType.digitSpan ∨
          t.type = TaskType.attention))).map
        (fun t => taskAdjustedScore (states t.id))).sum) ∧
    ((computeScores tasks states).executiveScore =
      ((tasks.filter (fun t => decide (t.type = TaskType.clockDrawing))).map
        (fun t => taskAdjustedScore (states t.id))).sum) ∧
    ((computeScores tasks states).languageScore =
      ((tasks.filter (fun t => decide (t.type = TaskType.tapping))).map
        (fun t => taskAdjustedScore (states t.id))).sum) ∧
    (∀ (acc : CognitiveScores) (adj : ℚ),
      (scoreStep acc TaskType.wordRecall adj).attentionScore =
        acc.attentionScore ∧
      (scoreStep acc TaskType.wordRecall adj).languageScore =
        acc.languageScore ∧
      (scoreStep acc TaskType.wordRecall adj).executiveScore =
        acc.executiveScore) ∧
    (∀ (t : CognitiveTask) (st : TaskState),
      tasks.filter (fun t => decide (t.type = TaskType.wordRecall)) = [t] →
      states t.id = some st → st.correct = some true → st.errors = 0 →
      (computeScores tasks states).memoryScore = 1) := by
  refine ⟨?_, ?_, ?_, ?_, ?_, ?_⟩
  · simpa using scoresFold_memory states tasks ⟨0, 0, 0, 0⟩
  · simpa using scoresFold_attention states tasks ⟨0, 0, 0, 0⟩
  · simpa using scoresFold_executive states tasks ⟨0, 0, 0, 0⟩
  · simpa using scoresFold_language states tasks ⟨0, 0, 0, 0⟩
  · intro acc adj
    refine ⟨?_, ?_, ?_⟩ <;> simp [scoreStep]
  · intro t st hfil hst hc he
    have h := scoresFold_memory states tasks ⟨0, 0, 0, 0⟩
    rw [hfil] at h
    simpa [computeScores, hst, taskAdjustedScore, taskBaseScore,
      taskErrors, hc, he] using h

/-- **C7, witness.** A session consisting of exactly one word-recall task,
answered correctly with no errors, scores memory 1 — and the word-recall
step adds nothing to attention, language or executive. -/
theorem domain_score_attribution_witness :
    (([⟨"word-recall", TaskType.wordRecall, "p", none, none, some [0]⟩] :
        List CognitiveTask).filter
      (fun t => decide (t.type = TaskType.wordRecall)) =
        [⟨"word-recall", TaskType.wordRecall, "p", none, none, some [0]⟩]) ∧
    (computeScores
      [⟨"word-recall", TaskType.wordRecall, "p", none, none, some [0]⟩]
      (fun _ => some ⟨none, 100, some true, 0, none, none, some [0]⟩)
      ).memoryScore = 1 :=
  ⟨by decide,
    (domain_score_attribution
      [⟨"word-recall", TaskType.wordRecall, "p", none, none, some [0]⟩]
      (fun _ => some ⟨none, 100, some true, 0, none, none, some [0]⟩)
      ).2.2.2.2.2
      ⟨"word-recall", TaskType.wordRecall, "p", none, none, some [0]⟩
      ⟨none, 100, some true, 0, none, none, some [0]⟩
      (by decide) rfl rfl rfl⟩

/-- **C9.** `fetchAssessmentResult` maps the historical alternate risk
label "Moderate" to the canonical "Medium" and leaves the canonical
labels "Low", "Medium", "High" unchanged, so every risk label drawn from
the canonical scale or its historical synonym is returned on the
canonical three-level scale. -/
theorem risk_label_normalization :
    normalizedRisk "Moderate" = "Medium" ∧
    (∀ r ∈ canonicalRiskLevels, normalizedRisk r = r) ∧
    (∀ r : String, r ∈ canonicalRiskLevels ∨ r = "Moderate" →
      normalizedRisk r ∈ canonicalRiskLevels) := by
  refine ⟨rfl, ?_, ?_⟩
  · intro r hr
    simp only [canonicalRiskLevels, List.mem_cons, List.not_mem_nil,
      or_false] at hr
    rcases hr with rfl | rfl | rfl <;> decide
  · intro r hr
    rcases hr with hr | rfl
    · simp only [canonicalRiskLevels, List.mem_cons, List.not_mem_nil,
        or_false] at hr
      rcases hr with rfl | rfl | rfl <;> decide
    · decide

/-- **C9, witness.** "Low" is left unchanged and "Moderate" lands on the
canonical scale (as "Medium"). -/
theorem risk_label_normalization_witness :
    normalizedRisk "Low" = "Low" ∧
    normalizedRisk "Moderate" ∈ canonicalRiskLevels :=
  ⟨risk_label_normalization.2.1 "Low" (by decide),
    risk_label_normalization.2.2 "Moderate" (Or.inr rfl)⟩

theorem scoreStep_zero (acc : CognitiveScores) (ty : TaskType) :
    scoreStep acc ty 0 = acc := by
  cases ty <;> simp [scoreStep]

/-- **C10.** Assembling the cognitive submission is total over the task
list: exactly one interaction log per task, in task order, and a task
with no recorded state yields response time 0, unknown correctness
(`null`), no `errors` entry, metadata carrying only the empty selected
sequence, and contributes exactly 0 to all four domain sub-scores. -/
theorem submission_assembly_total (tasks : List CognitiveTask)
    (states : String → Option TaskState) :
    (buildLogs tasks states).length = tasks.length ∧
    (∀ i, (h : i < tasks.length) →
      (buildLogs tasks states)[i]? =
        some (buildLog tasks[i] (states tasks[i].id))) ∧
    (∀ t : CognitiveTask, states t.id = none →
      (buildLog t (states t.id)).responseTimeMs = 0 ∧
      (buildLog t (states t.id)).correct = none ∧
      (buildLog t (states t.id)).errors = none ∧
      (∀ m, (buildLog t (states t.id)).metadata = some m →
        m.selectedSequence = []) ∧
      taskAdjustedScore (states t.id) = 0 ∧
      (∀ acc : CognitiveScores,
        scoreStep acc t.type (taskAdjustedScore (states t.id)) = acc)) := by
  refine ⟨by simp [buildLogs], ?_, ?_⟩
  · intro i h
    simp [buildLogs, List.getElem?_map, List.getElem?_eq_getElem h]
  · intro t ht
    have hadj : taskAdjustedScore (states t.id) = 0 := by
      simp [ht, taskAdjustedScore, taskBaseScore, taskErrors]
    refine ⟨by simp [buildLog, ht], by simp [buildLog, ht],
      by simp [buildLog, ht], ?_, hadj, ?_⟩
    · intro m hm
      simp only [buildLog, ht] at hm
      cases hsa : t.sequenceAnswer with
      | none => rw [hsa] at hm; simp at hm
      | some exp =>
        rw [hsa] at hm
        simp only [Option.some_inj] at hm
        subst hm
        rfl
    · intro acc
      rw [hadj]
      exact scoreStep_zero acc t.type

/-- **C10, witness.** A one-task list with an empty state map produces
one log with response time 0, and the stateless task adds nothing to an
arbitrary score accumulator. -/
theorem submission_assembly_total_witness :
    (buildLogs [⟨"clock-drawing", TaskType.clockDrawing, "p", none, none,
      none⟩] (fun _ => none)).length = 1 ∧
    (buildLog ⟨"clock-drawing", TaskType.clockDrawing, "p", none, none,
      none⟩ ((fun _ => (none : Option TaskState)) "clock-drawing")
      ).responseTimeMs = 0 ∧
    scoreStep ⟨1, 2, 3, 4⟩ TaskType.clockDrawing
      (taskAdjustedScore ((fun _ => (none : Option TaskState))
        "clock-drawing")) = ⟨1, 2, 3, 4⟩ :=
  have h := submission_assembly_total
    [⟨"clock-drawing", TaskType.clockDrawing, "p", none, none, none⟩]
    (fun _ => none)
  have h3 := h.2.2
    ⟨"clock-drawing", TaskType.clockDrawing, "p", none, none, none⟩ rfl
  ⟨h.1, h3.1, h3.2.2.2.2.2 ⟨1, 2, 3, 4⟩⟩

/-- Decimal rendering is injective on single digits (the only values the
digit-span generator feeds to `String(d)`). -/
theorem toString_nat_inj_lt_ten :
    ∀ a < 10, ∀ b < 10, toString (a : ℕ) = toString (b : ℕ) → a = b := by
  decide

/-- **C4.** The expected-index permutation of a generated word-recall or
digit-span task recovers the target sequence through the option list:
`options[sequenceAnswer[i]] = target[i]` with every entry a valid index;
the digit-span option pool is duplicate-free (distractors never collide
with target digits), and each target digit appears exactly once among the
options. -/
theorem generator_expected_index_spec
    (words options : List String) (hw : options.Perm words)
    (digits distractors pool : List ℕ)
    (hpool : pool.Perm ((digits ++ distractors).dedup))
    (hsmall : ∀ n ∈ digits ++ distractors, n < 10) :
    (∀ i, (h : i < words.length) →
      ∃ k : ℕ,
        (makeWordRecallTask words options).sequenceAnswer[i]? =
          some (k : ℤ) ∧
        k < (makeWordRecallTask words options).options.length ∧
        (makeWordRecallTask words options).options[k]? = some words[i]) ∧
    (makeDigitSpanTask digits pool).options.Nodup ∧
    (∀ d ∈ digits,
      (makeDigitSpanTask digits pool).options.count (toString d) = 1) ∧
    (∀ i, (h : i < digits.length) →
      ∃ k : ℕ,
        (makeDigitSpanTask digits pool).sequenceAnswer[i]? =
          some (k : ℤ) ∧
        k < (makeDigitSpanTask digits pool).options.length ∧
        (makeDigitSpanTask digits pool).options[k]? =
          some (toString digits[i])) := by
  have hlt : ∀ n ∈ pool, n < 10 := fun n hn =>
    hsmall n (List.mem_dedup.mp (hpool.mem_iff.mp hn))
  have hpnd : pool.Nodup := hpool.nodup_iff.mpr (List.nodup_dedup _)
  have hinj : ∀ x ∈ pool, ∀ y ∈ pool, toString x = toString y → x = y :=
    fun x hx y hy => toString_nat_inj_lt_ten x (hlt x hx) y (hlt y hy)
  have hond : (pool.map (fun n => toString n)).Nodup :=
    List.Nodup.map_on hinj hpnd
  have hdm : ∀ d ∈ digits, toString d ∈ pool.map (fun n => toString n) := by
    intro d hd
    exact List.mem_map_of_mem _
      (hpool.mem_iff.mpr (List.mem_dedup.mpr (List.mem_append_left _ hd)))
  refine ⟨?_, hond, ?_, ?_⟩
  · intro i h
    have hmem : words[i] ∈ options := hw.mem_iff.mpr (List.getElem_mem h)
    refine ⟨options.indexOf words[i], ?_, List.indexOf_lt_length.mpr hmem, ?_⟩
    · simp [makeWordRecallTask, List.getElem?_map,
        List.getElem?_eq_getElem h, jsIndexOf, hmem]
    · rw [show (makeWordRecallTask words options).options = options from rfl,
        ← List.get?_eq_getElem?]
      exact List.indexOf_get? hmem
  · intro d hd
    exact List.count_eq_one_of_mem hond (hdm d hd)
  · intro i h
    have hmem := hdm digits[i] (List.getElem_mem h)
    refine ⟨(pool.map (fun n => toString n)).indexOf (toString digits[i]),
      ?_, List.indexOf_lt_length.mpr hmem, ?_⟩
    · simp [makeDigitSpanTask, List.getElem?_map,
        List.getElem?_eq_getElem h, jsIndexOf, hmem]
      exact ⟨digits[i],
        hpool.mem_iff.mpr (List.mem_dedup.mpr
          (List.mem_append_left _ (List.getElem_mem h))), rfl⟩
    · rw [show (makeDigitSpanTask digits pool).options =
          pool.map (fun n => toString n) from rfl,
        ← List.get?_eq_getElem?]
      exact List.indexOf_get? hmem

/-- **C4, witness.** Instantiation of `generator_expected_index_spec` on a
two-word lexicon (shuffled by swapping) and the digit pool `[3, 9]` with
distractors `[0, 1, 2, 3, 4]`: the first expected index recovers the first
target word, and the target digit 3 appears exactly once in the options. -/
theorem generator_expected_index_spec_witness :
    (∃ k : ℕ,
      (makeWordRecallTask ["a", "b"] ["b", "a"]).sequenceAnswer[0]? =
        some (k : ℤ) ∧
      k < (makeWordRecallTask ["a", "b"] ["b", "a"]).options.length ∧
      (makeWordRecallTask ["a", "b"] ["b", "a"]).options[k]? =
        some (["a", "b"] : List String)[0]) ∧
    (makeDigitSpanTask [3, 9]
      (([3, 9] ++ [0, 1, 2, 3, 4]).dedup)).options.count (toString 3) = 1 :=
  have h := generator_expected_index_spec ["a", "b"] ["b", "a"] (by decide)
    [3, 9] [0, 1, 2, 3, 4] (([3, 9] ++ [0, 1, 2, 3, 4]).dedup)
    (List.Perm.refl _) (by decide)
  ⟨h.1 0 (by decide), h.2.2.1 3 (by decide)⟩

end Sih
